import Mathlib

/-!
# Verification of the Dealdriver.Hubspot domain crawl engine

A shallow embedding of the crawl core of the repository:

* `src/services/scraper.py` — `WebScraper.extract_emails_from_html`, the
  `MIN_CONTENT_LENGTH` constant;
* `src/services/html_aware_scraper.py` — `HTMLAwareScraper.scrape_url_with_html`,
  `_scrape_with_selenium_html`, `extract_links_from_html`;
* `src/services/multi_page_scraper.py` — `MultiPageScraper.scrape_multi_page`,
  `create_combined_content`;
* `src/utils/domain.py` — `extract_domain`, `normalize_url`.

Python strings are modelled as Lean `String` (operations are re-implemented over
`List Char` by structural recursion so that every definition evaluates inside the
kernel).  External collaborators (the `requests` transport, the Selenium driver,
BeautifulSoup's tag enumeration, `urllib.parse.urljoin`) are modelled as explicit
parameters: a fetch attempt is an `Except`-value (exception message or page), the
parsed markup is the list of `href` attributes BeautifulSoup would enumerate, and
`urljoin` is an abstract function argument.  Everything downstream of those
boundaries is translated line by line from the source.
-/

namespace Dealdriver

/-! ## Python string primitives

Re-implementations of the Python `str` operations used by the crawl core.
All of them work on `String.data` with structural recursion.  The repository
only ever feeds ASCII text through these paths, and the Python semantics are
matched on ASCII (`str.strip`'s extra unicode spaces and `str.lower`'s unicode
folding are out of scope). -/

/-- Python `str.strip()` whitespace set (ASCII part): `" \t\n\r\x0b\x0c"`. -/
def pyIsSpace (c : Char) : Bool :=
  c = ' ' || c = '\t' || c = '\n' || c = '\r' || c = '\x0b' || c = '\x0c'

/-- Python `s.strip()`. -/
def pyStrip (s : String) : String :=
  String.mk (((s.data.dropWhile pyIsSpace).reverse.dropWhile pyIsSpace).reverse)

/-- Python `s.lower()` (ASCII). -/
def pyLower (s : String) : String :=
  String.mk (s.data.map Char.toLower)

/-- Python `s.startswith(p)`. -/
def pyStartsWith (s p : String) : Bool :=
  p.data.isPrefixOf s.data

/-- Python `s.endswith(p)`. -/
def pyEndsWith (s p : String) : Bool :=
  p.data.reverse.isPrefixOf s.data.reverse

/-- Python `s[n:]` (drop the first `n` characters). -/
def pyDrop (s : String) (n : Nat) : String :=
  String.mk (s.data.drop n)

/-- Python `s.split(sep)` for a one-character separator: keeps empty pieces,
returns one more piece than there are separators. -/
def pySplitAux (sep : Char) : List Char → List Char → List (List Char)
  | [], acc => [acc.reverse]
  | c :: cs, acc =>
    if c = sep then acc.reverse :: pySplitAux sep cs []
    else pySplitAux sep cs (c :: acc)

/-- Python `s.split(sep)` for a one-character separator. -/
def pySplit (sep : Char) (s : String) : List String :=
  (pySplitAux sep s.data []).map String.mk

/-- The prefix of `s` whose characters satisfy `p` (used for the netloc /
path delimiters of `urllib.parse`). -/
def strTakeWhile (p : Char → Bool) (s : String) : String :=
  String.mk (s.data.takeWhile p)

/-- Membership of a character in a string, Python `c in s`. -/
def pyContains (s : String) (c : Char) : Bool :=
  s.data.contains c

/-! ## `urllib.parse` model

Only the pieces the crawl core reads: `scheme` splitting, `netloc`, `path`,
and the `hostname` accessor.  IPv6 bracket hosts are not modelled (the
repository never constructs them). -/

/-- Characters CPython allows inside a URL scheme. -/
def isSchemeChar (c : Char) : Bool :=
  c.isAlphanum || c = '+' || c = '-' || c = '.'

/-- CPython `urlsplit` scheme detection: the text before the first `':'` is a
scheme when it is nonempty, starts with a letter and uses scheme characters
only.  Returns `(scheme lowercased, remainder)`. -/
def splitScheme (u : String) : Option (String × String) :=
  let cs := u.data
  let pre := cs.takeWhile (fun c => c ≠ ':')
  match pre with
  | [] => none
  | c :: rest =>
    if pre.length < cs.length ∧ c.isAlpha ∧ rest.all isSchemeChar then
      some (String.mk ((c :: rest).map Char.toLower), String.mk (cs.drop (pre.length + 1)))
    else none

/-- `urlparse(u).netloc` and `urlparse(u).path`: after the scheme, a `//`
introduces the netloc, which runs to the first of `/`, `?`, `#`; the path is
what follows, up to `?`/`#`. -/
def urlparseNetlocPath (u : String) : String × String :=
  let rest := match splitScheme u with
    | some p => p.2
    | none => u
  if pyStartsWith rest "//" then
    let after2 := pyDrop rest 2
    let netloc := strTakeWhile (fun c => c ≠ '/' && c ≠ '?' && c ≠ '#') after2
    let tail := pyDrop after2 netloc.data.length
    (netloc, strTakeWhile (fun c => c ≠ '?' && c ≠ '#') tail)
  else
    ("", strTakeWhile (fun c => c ≠ '?' && c ≠ '#') rest)

/-- `urlparse(u).hostname`: from the netloc, keep what follows the last `'@'`,
drop everything from the first `':'`, lowercase; `none` when empty. -/
def hostnameOf (u : String) : Option String :=
  let netloc := (urlparseNetlocPath u).1
  let hostinfo := (pySplit '@' netloc).getLastD ""
  let hostname := (pySplit ':' hostinfo).headD ""
  if hostname = "" then none else some (pyLower hostname)

/-! ## `src/utils/domain.py` -/

/-- `ProcessingConfig.MIN_DOMAIN_LENGTH` from `src/constants.py`. -/
def MIN_DOMAIN_LENGTH : Nat := 4

/-- First label of the domain regex: `[a-zA-Z0-9][a-zA-Z0-9-]*[a-zA-Z0-9]*`,
i.e. a nonempty run over alphanumerics and `-` starting alphanumeric. -/
def isLabelA (l : List Char) : Bool :=
  match l with
  | [] => false
  | c :: rest => c.isAlphanum && rest.all (fun x => x.isAlphanum || x = '-')

/-- A TLD-ish label of the domain regex: `[a-zA-Z]{2,}` or `xn--[a-zA-Z0-9]+`. -/
def isTldLabel (l : List Char) : Bool :=
  (2 ≤ l.length && l.all Char.isAlpha) ||
  (match l with
   | 'x' :: 'n' :: '-' :: '-' :: rest => rest.length ≥ 1 && rest.all Char.isAlphanum
   | _ => false)

/-- The language of `domain_pattern` in `extract_domain`:
`^[a-zA-Z0-9][a-zA-Z0-9-]*[a-zA-Z0-9]*\.([a-zA-Z]{2,}|xn--[a-zA-Z0-9]+)([\.][a-zA-Z]{2,}|[\.](xn--[a-zA-Z0-9]+))*$`.
No label class contains `'.'`, so matching is equivalent to splitting on `'.'`
and checking each label. -/
def domainLang (s : String) : Bool :=
  match pySplit '.' s with
  | [] => false
  | [_] => false
  | a :: rest => isLabelA a.data && rest.all (fun l => isTldLabel l.data)

/-- `domain_pattern.match(domain)`: the pattern is anchored with `^...$`; in
Python `$` also matches just before a single trailing newline, which is kept
here for faithfulness (no label class contains `'\n'`). -/
def matchesDomainPattern (s : String) : Bool :=
  domainLang s ||
  (pyEndsWith s "\n" && domainLang (String.mk (s.data.dropLast)))

/-- The email branch of `extract_domain`: when the (stripped, lowered) text
contains `'@'` and splits into exactly two parts, the part after `'@'` is
stripped and returned as soon as it is nonempty and contains a dot.  No
`www.`/port stripping and no format validation happen on this path. -/
def email_branch (t : String) : Option String :=
  if pyContains t '@' then
    match pySplit '@' t with
    | [_, d0] =>
      let d := pyStrip d0
      if d ≠ "" ∧ pyContains d '.' then some d else none
    | _ => none
  else none

/-- Domain processing of the URL branch of `extract_domain`: force an
`https://` scheme when none of the four recognised schemes is present, parse,
prefer `netloc` over `path`, strip one leading `www.`, drop a port suffix,
and drop a path when the parse had no netloc. -/
def url_branch_domain (t : String) : String :=
  let t2 :=
    if pyStartsWith t "http://" || pyStartsWith t "https://" ||
       pyStartsWith t "ftp://" || pyStartsWith t "ftps://" then t
    else "https://" ++ t
  let parsed := urlparseNetlocPath t2
  let domain0 := if parsed.1 = "" then parsed.2 else parsed.1
  let domain1 := if pyStartsWith domain0 "www." then pyDrop domain0 4 else domain0
  let domain2 := if pyContains domain1 ':' then (pySplit ':' domain1).headD "" else domain1
  if parsed.1 = "" ∧ pyContains domain2 '/' then (pySplit '/' domain2).headD ""
  else domain2

/-- Validation tail of the URL branch: accept the processed domain when the
regex matches or the simpler fallback
(`"." in domain and len(domain) >= MIN_DOMAIN_LENGTH`) holds. -/
def url_branch (t : String) : Option String :=
  let domain3 := url_branch_domain t
  if domain3 ≠ "" ∧ matchesDomainPattern domain3 = true then some domain3
  else if domain3 ≠ "" ∧ pyContains domain3 '.' ∧ MIN_DOMAIN_LENGTH ≤ domain3.data.length then
    some domain3
  else none

/-- `extract_domain` from `src/utils/domain.py`.  The `try/except` of the
source never fires in this model (all operations are total); invalid input
yields `none`. -/
def extract_domain (text : String) : Option String :=
  if text = "" then none
  else
    match email_branch (pyLower (pyStrip text)) with
    | some d => some d
    | none => url_branch (pyLower (pyStrip text))

/-- `normalize_url` from `src/utils/domain.py`. -/
def normalize_url (url : String) : String :=
  if url = "" then ""
  else
    let u := pyStrip url
    if pyStartsWith u "http://" || pyStartsWith u "https://" then u
    else "https://" ++ u

/-! ## The email regex of `WebScraper.extract_emails_from_html`

`r'[a-zA-Z0-9._%+-]+@[a-zA-Z0-9.-]+\.[a-zA-Z]{2,}'`, scanned with
`re.findall`: leftmost matches, greedy quantifiers with backtracking,
scanning resumes after the end of each match. -/

/-- The local-part class `[a-zA-Z0-9._%+-]`. -/
def isLocalChar (c : Char) : Bool :=
  c.isAlphanum || c = '.' || c = '_' || c = '%' || c = '+' || c = '-'

/-- The domain class `[a-zA-Z0-9.-]`. -/
def isDomainChar (c : Char) : Bool :=
  c.isAlphanum || c = '.' || c = '-'

/-- Length of the maximal run of characters satisfying `p`. -/
def runLen (p : Char → Bool) (cs : List Char) : Nat :=
  (cs.takeWhile p).length

/-- Backtracking for `[a-zA-Z0-9.-]+\.[a-zA-Z]{2,}` after the `'@'`: try to
place the literal `'.'` at offset `k, k-1, …, 1` (the `+` is greedy, so the
largest viable offset wins); at each offset the trailing `[a-zA-Z]{2,}` is the
maximal alphabetic run, accepted when it has length at least 2.  Returns the
total number of characters matched. -/
def domBacktrack (ds : List Char) : Nat → Option Nat
  | 0 => none
  | Nat.succ k =>
    let m := runLen Char.isAlpha (ds.drop (k + 2))
    if ds.get? (k + 1) = some '.' ∧ 2 ≤ m then some (k + 2 + m)
    else domBacktrack ds k

/-- Length of the regex match starting exactly at the head of `cs`, if any:
a nonempty greedy local-part run, a literal `'@'` (no backtracking can help,
since `'@'` is not in the local class), then the domain tail. -/
def matchEmailAt (cs : List Char) : Option Nat :=
  let l := runLen isLocalChar cs
  if l = 0 then none
  else if cs.get? l = some '@' then
    let ds := cs.drop (l + 1)
    let d := runLen isDomainChar ds
    if d = 0 then none
    else
      match domBacktrack ds d with
      | some n => some (l + 1 + n)
      | none => none
  else none

/-- `re.findall` scanning loop: try each start position left to right, emit the
match and resume after it.  `fuel` bounds the recursion; every successful match
consumes at least one character, so `|cs| + 1` fuel is always enough. -/
def scanEmailsAux : Nat → List Char → List String
  | 0, _ => []
  | _ + 1, [] => []
  | fuel + 1, c :: cs =>
    match matchEmailAt (c :: cs) with
    | some n => String.mk ((c :: cs).take n) :: scanEmailsAux fuel ((c :: cs).drop n)
    | none => scanEmailsAux fuel cs

/-- All matches of the email regex in `s`, in scan order. -/
def findEmails (s : String) : List String :=
  scanEmailsAux (s.data.length + 1) s.data

/-! ## `WebScraper.extract_emails_from_html` (`src/services/scraper.py`) -/

/-- `email.split('@')[1]`: the piece between the first and second `'@'`
(every regex match contains exactly one `'@'`). -/
def emailDomainPart (email : String) : String :=
  (pySplit '@' email).getD 1 ""

/-- The filter of `extract_emails_from_html`: keep `email` when its domain
part, lowercased, equals the target domain (lowercased) or ends with
`"." + domain.lower()`. -/
def emailDomainOk (domain email : String) : Bool :=
  let email_domain := pyLower (emailDomainPart email)
  email_domain = pyLower domain || pyEndsWith email_domain ("." ++ pyLower domain)

/-- Loop body of `extract_emails_from_html`: append a matching address unless
its lowercase form is already present (case-insensitive deduplication keeping
the first-seen casing). -/
def emailStep (domain : String) (acc : List String) (email : String) : List String :=
  if emailDomainOk domain email = true then
    if (acc.map pyLower).contains (pyLower email) then acc else acc ++ [email]
  else acc

/-- `WebScraper.extract_emails_from_html`: regex scan, domain filter,
case-insensitive first-seen deduplication. -/
def extract_emails_from_html (html domain : String) : List String :=
  (findEmails html).foldl (emailStep domain) []

/-- Specification-side deduplication: drop an element whose `pyLower`-image was
already seen, keeping first-seen casing and order.  Used to state what the
fold of `extract_emails_from_html` computes. -/
def dedupLowerSeen (seen : List String) : List String → List String
  | [] => []
  | e :: rest =>
    if pyLower e ∈ seen then dedupLowerSeen seen rest
    else e :: dedupLowerSeen (pyLower e :: seen) rest

/-! ## Data model -/

/-- `ScrapedPage` from `src/services/html_aware_scraper.py`. -/
structure ScrapedPage where
  url : String
  text_content : String
  html_content : String
  emails : List String
  success : Bool
  error : Option String
deriving DecidableEq, Repr

/-- `ScrapedContent` from `src/models/enrichment.py` (the `None` default of
`emails` is modelled as the empty list; the crawl core always passes a list). -/
structure ScrapedContent where
  url : String
  content : String
  success : Bool
  error : Option String
  emails : List String
deriving DecidableEq, Repr

/-- `WebScraper.MIN_CONTENT_LENGTH` (`src/services/scraper.py`). -/
def MIN_CONTENT_LENGTH : Nat := 100

/-! ## `HTMLAwareScraper.scrape_url_with_html` (dual-strategy fetch)

The `requests` transport and the Selenium engine are external; the lightweight
attempt is modelled as an `Except`-value (`.error e` = the attempt raised, which
`_scrape_with_requests_html` converts into a caught failure, `.ok p` = the
returned page), and the Selenium result as the page
`_scrape_with_selenium_html` would return.  The second component of the result
records whether the Selenium path was taken (the escalation the claims talk
about). -/

/-- `HTMLAwareScraper.scrape_url_with_html`: return the lightweight result only
when it succeeded with `len(text_content) > MIN_CONTENT_LENGTH`; in every other
case (no requests scraper, exception, failure flag, short text) fall back to
Selenium. -/
def scrape_url_with_html (hasRequests : Bool) (attempt : Except String ScrapedPage)
    (selenium : ScrapedPage) : ScrapedPage × Bool :=
  if hasRequests = true then
    match attempt with
    | Except.ok scraped_page =>
      if scraped_page.success = true ∧ MIN_CONTENT_LENGTH < scraped_page.text_content.length then
        (scraped_page, false)
      else (selenium, true)
    | Except.error _ => (selenium, true)
  else (selenium, true)

/-- Strip one leading `www.` (the crawl core's host comparison prelude). -/
def stripWww (d : String) : String :=
  if pyStartsWith d "www." then pyDrop d 4 else d

/-- `HTMLAwareScraper._scrape_with_selenium_html`.  `hasScraper` models
`self.fallback_scraper or self._create_scraper()` being non-`None`; `nav` is
the outcome of initialize/navigate/read on the driver: either the exception
message or the pair `(page_source, body text)`.  Email extraction runs on the
fetched markup, scoped to the page host without its `www.` prefix. -/
def scrape_with_selenium_html (hasScraper : Bool) (url : String)
    (nav : Except String (String × String)) : ScrapedPage :=
  if hasScraper = false then
    { url := url, text_content := "", html_content := "", emails := [],
      success := false, error := some "Failed to create scraper" }
  else
    match nav with
    | Except.error e =>
      { url := url, text_content := "", html_content := "", emails := [],
        success := false, error := some e }
    | Except.ok (html_content, text_content) =>
      let normalized_url := normalize_url url
      let domain := (hostnameOf normalized_url).map stripWww
      let emails := match domain with
        | some d => extract_emails_from_html html_content d
        | none => []
      { url := normalized_url, text_content := text_content, html_content := html_content,
        emails := emails,
        success := decide (MIN_CONTENT_LENGTH < text_content.length),
        error := if MIN_CONTENT_LENGTH < text_content.length then none
                 else some "Insufficient content" }

/-! ## `HTMLAwareScraper.extract_links_from_html`

BeautifulSoup's `find_all(['a', 'link'])` enumeration is the modelling
boundary: the markup argument is the list of `href` attributes of those tags
in document order (`none` for a tag without `href`).  `urllib.parse.urljoin`
is an abstract function argument.  The `try/except` of the source never fires
past that boundary (all remaining operations are total). -/

structure CrawlEnv where
  fetch : String → ScrapedPage
  extractLinks : String → String → String → List String

structure CrawlState where
  queue : List (String × Nat)
  visited : List String
  results : List (String × Nat × ScrapedContent)
deriving DecidableEq, Repr

/-- The conversion `ScrapedContent(url=..., content=..., ...)` performed on
every scraped page inside the loop. -/
def toScrapedContent (p : ScrapedPage) : ScrapedContent :=
  { url := p.url, content := p.text_content, success := p.success,
    error := p.error, emails := p.emails }

/-- The link-enqueueing loop: append `(link, current_depth + 1)` for every
extracted link that is neither visited nor already queued at that depth. -/
def enqueueLinks (visited : List String) (d1 : Nat) (queue0 : List (String × Nat))
    (links : List String) : List (String × Nat) :=
  links.foldl
    (fun q link => if link ∉ visited ∧ (link, d1) ∉ q then q ++ [(link, d1)] else q)
    queue0

/-- One iteration of the `while` body: pop `(url, depth)`; skip a visited URL;
otherwise mark visited, fetch, record the result, and (only when the fetch
succeeded and `depth < max_depth`) extract links and grow the frontier. -/
def crawlStep (env : CrawlEnv) (base_domain : String) (max_depth : Nat)
    (s : CrawlState) : CrawlState :=
  match s.queue with
  | [] => s
  | (url, depth) :: rest =>
    if url ∈ s.visited then { s with queue := rest }
    else
      let page := env.fetch url
      let visited1 := s.visited ++ [url]
      let results1 := s.results ++ [(url, depth, toScrapedContent page)]
      let queue1 :=
        if page.success = true ∧ depth < max_depth then
          enqueueLinks visited1 (depth + 1) rest
            (env.extractLinks page.html_content url base_domain)
        else rest
      { queue := queue1, visited := visited1, results := results1 }

/-- `while url_queue and len(scraped_pages) < max_pages: ...`, fuel-bounded. -/
def crawlLoop (env : CrawlEnv) (base_domain : String) (max_depth max_pages : Nat) :
    Nat → CrawlState → CrawlState
  | 0, s => s
  | fuel + 1, s =>
    if s.queue = [] ∨ ¬ s.results.length < max_pages then s
    else crawlLoop env base_domain max_depth max_pages fuel
      (crawlStep env base_domain max_depth s)

/-- `MultiPageScraper.scrape_multi_page`: derive `base_domain` from the start
URL (`urlparse(start_url).netloc` without a leading `www.`), seed the queue
with `(start_url, 0)` and run the loop.  The result list records, in crawl
order, each stored key together with the depth at which it was dequeued and
the stored `ScrapedContent`. -/
def scrape_multi_page (env : CrawlEnv) (start_url : String)
    (max_depth max_pages fuel : Nat) : List (String × Nat × ScrapedContent) :=
  let base_domain := stripWww (urlparseNetlocPath start_url).1
  (crawlLoop env base_domain max_depth max_pages fuel
    { queue := [(start_url, 0)], visited := [], results := [] }).results

/-! ## `MultiPageScraper.create_combined_content`

`scraped_pages` is the results dictionary in insertion order; the running
`all_emails` set is modelled as an insert-if-absent list (the claims about it
are order-insensitive). -/

/-- `all_emails.update(scraped.emails)`. -/
def emailsUnionStep (all_emails : List String) (es : List String) : List String :=
  es.foldl (fun acc e => if e ∈ acc then acc else acc ++ [e]) all_emails

/-- Loop body of `create_combined_content`, folding
`(content parts, all_emails, successful_pages)`. -/
def combineStep (acc : List String × List String × Nat) (entry : String × ScrapedContent) :
    List String × List String × Nat :=
  let url := entry.1
  let scraped := entry.2
  if scraped.success = true ∧ scraped.content ≠ "" then
    (acc.1 ++ ["\n\n=== Page: " ++ url ++ " ===\n", scraped.content],
     (if scraped.emails ≠ [] then emailsUnionStep acc.2.1 scraped.emails else acc.2.1),
     acc.2.2 + 1)
  else acc

/-- `MultiPageScraper.create_combined_content`. -/
def create_combined_content (scraped_pages : List (String × ScrapedContent)) : ScrapedContent :=
  match scraped_pages with
  | [] =>
    { url := "", content := "", success := false,
      error := some "No pages scraped", emails := [] }
  | (main_url, _) :: _ =>
    let folded := scraped_pages.foldl combineStep ([], [], 0)
    let combined_content := pyStrip (String.join folded.1)
    { url := main_url,
      content := combined_content,
      success := decide (0 < folded.2.2),
      error := if 0 < folded.2.2 then none else some "No successful pages",
      emails := folded.2.1 }

/-! ## Concrete fixtures used by witnesses and counterexamples -/

/-- A Selenium result page used as the fallback in fetcher examples. -/
def selPage : ScrapedPage :=
  { url := "https://sel.test", text_content := "selenium rendered text",
    html_content := "<html>", emails := [], success := true, error := none }

/-- A lightweight result whose text has length exactly `MIN_CONTENT_LENGTH`. -/
def page100 : ScrapedPage :=
  { url := "https://e.test", text_content := String.mk (List.replicate 100 'a'),
    html_content := "", emails := [], success := true, error := none }

/-- A lightweight result whose text has length `MIN_CONTENT_LENGTH + 1`. -/
def page101 : ScrapedPage :=
  { url := "https://e.test", text_content := String.mk (List.replicate 101 'a'),
    html_content := "", emails := [], success := true, error := none }

/-- A lightweight success whose text is the 10-character placeholder
`"Loading..."`. -/
def loadingPage : ScrapedPage :=
  { url := "https://e.test", text_content := "Loading...",
    html_content := "", emails := [], success := true, error := none }

/-- A 100-character body text for the Selenium boundary example. -/
def text100 : String := String.mk (List.replicate 100 'b')

/-- An all-fields-failed `ScrapedContent` for consolidation examples. -/
def cFail : ScrapedContent :=
  { url := "https://f.test", content := "", success := false,
    error := some "boom", emails := [] }

/-! ## C1 — dual-strategy escalation -/

/-- C1 counterexample: a lightweight success whose text has length exactly
`MIN_CONTENT_LENGTH` (100) is still escalated to the Selenium fetch, because
the source tests `len(text_content) > MIN_CONTENT_LENGTH`, not `>=`.  The
claim as stated ("text of at least MIN_CONTENT_LENGTH … is returned and no
rendering-engine attempt is made") is therefore false at this input. -/
theorem C1_counterexample :
    page100.success = true ∧
    MIN_CONTENT_LENGTH ≤ page100.text_content.length ∧
    (scrape_url_with_html true (Except.ok page100) selPage).2 = true := by
  decide

/-- C1 (amended): with a requests scraper available, the Selenium fetch is
attempted exactly when the lightweight attempt threw or returned a page that
is not a success with strictly more than `MIN_CONTENT_LENGTH` characters of
text; a lightweight success with text longer than the threshold is returned
unescalated; an escalated call returns the Selenium result; and a lightweight
success reading `"Loading..."` still escalates. -/
theorem C1_escalation_amended :
    ∀ (attempt : Except String ScrapedPage) (selenium : ScrapedPage),
      ((scrape_url_with_html true attempt selenium).2 = false ↔
        ∃ p, attempt = Except.ok p ∧ p.success = true ∧
          MIN_CONTENT_LENGTH < p.text_content.length) ∧
      (∀ p, attempt = Except.ok p → p.success = true →
        MIN_CONTENT_LENGTH < p.text_content.length →
        scrape_url_with_html true attempt selenium = (p, false)) ∧
      ((scrape_url_with_html true attempt selenium).2 = true →
        (scrape_url_with_html true attempt selenium).1 = selenium) ∧
      (scrape_url_with_html true (Except.ok loadingPage) selenium = (selenium, true)) := by
  intro attempt selenium
  refine ⟨?_, ?_, ?_, ?_⟩
  · cases attempt with
    | ok p =>
      by_cases h : p.success = true ∧ MIN_CONTENT_LENGTH < p.text_content.length
      · simp [scrape_url_with_html, h]
      · simp [scrape_url_with_html, h]
    | error e => simp [scrape_url_with_html]
  · intro p hp hs hl
    subst hp
    simp [scrape_url_with_html, hs, hl]
  · cases attempt with
    | ok p =>
      by_cases h : p.success = true ∧ MIN_CONTENT_LENGTH < p.text_content.length
      · simp [scrape_url_with_html, h]
      · simp [scrape_url_with_html, h]
    | error e => simp [scrape_url_with_html]
  · have h : ¬ (loadingPage.success = true ∧
        MIN_CONTENT_LENGTH < loadingPage.text_content.length) := by decide
    simp [scrape_url_with_html, h]

/-- C1 witness: a 101-character lightweight success is returned without a
Selenium attempt. -/
theorem C1_escalation_amended_witness :
    scrape_url_with_html true (Except.ok page101) selPage = (page101, false) :=
  (C1_escalation_amended (Except.ok page101) selPage).2.1 page101 rfl rfl (by decide)

/-! ## C5 — Selenium fetch success threshold -/

/-- C5 counterexample: a rendered body text of length exactly
`MIN_CONTENT_LENGTH` yields `success = false` with error
`"Insufficient content"`, because the source tests
`len(text_content) > MIN_CONTENT_LENGTH`; the claim's
`success ⟺ len ≥ MIN_CONTENT_LENGTH` is false at this input. -/
theorem C5_counterexample :
    MIN_CONTENT_LENGTH ≤ text100.length ∧
    (scrape_with_selenium_html true "https://e.test" (Except.ok ("<html>", text100))).success
      = false ∧
    (scrape_with_selenium_html true "https://e.test" (Except.ok ("<html>", text100))).error
      = some "Insufficient content" := by
  decide

/-- C5 (amended): when the Selenium navigation reads the page without raising,
the returned page succeeds iff the body text is strictly longer than
`MIN_CONTENT_LENGTH`; a shorter text yields the explicit
`"Insufficient content"` error, while a transport exception yields a failed
page carrying the exception message as its error. -/
theorem C5_selenium_threshold_amended :
    ∀ (url html text e : String),
      ((scrape_with_selenium_html true url (Except.ok (html, text))).success = true ↔
        MIN_CONTENT_LENGTH < text.length) ∧
      ((scrape_with_selenium_html true url (Except.ok (html, text))).text_content = text) ∧
      ((scrape_with_selenium_html true url (Except.ok (html, text))).error =
        if MIN_CONTENT_LENGTH < text.length then none else some "Insufficient content") ∧
      (scrape_with_selenium_html true url (Except.error e) =
        { url := url, text_content := "", html_content := "", emails := [],
          success := false, error := some e }) := by
  intro url html text e
  refine ⟨?_, ?_, ?_, ?_⟩
  · simp [scrape_with_selenium_html]
  · simp [scrape_with_selenium_html]
  · simp [scrape_with_selenium_html]
  · simp [scrape_with_selenium_html]

/-! ## C6 — consolidation of empty / all-failed crawls -/

/-- When no entry passes the success-and-nonempty-content test, the
consolidation fold leaves its accumulator untouched. -/
theorem combine_fold_all_fail (l : List (String × ScrapedContent))
    (acc : List String × List String × Nat)
    (h : ∀ e ∈ l, ¬ (e.2.success = true ∧ e.2.content ≠ "")) :
    l.foldl combineStep acc = acc := by
  induction l generalizing acc with
  | nil => rfl
  | cons a l ih =>
    have ha : ¬ (a.2.success = true ∧ a.2.content ≠ "") := h a (by simp)
    have hstep : combineStep acc a = acc := by
      simp [combineStep, ha]
    rw [List.foldl_cons, hstep]
    exact ih acc (fun e he => h e (by simp [he]))

/-- C6: consolidating an empty results map returns the `"No pages scraped"`
failure with empty content and emails; a non-empty map with no successful,
non-empty page returns the `"No successful pages"` failure with empty content
and emails.  Both paths are total (no exception can escape). -/
theorem C6_all_fail_consolidation :
    (create_combined_content [] =
      { url := "", content := "", success := false,
        error := some "No pages scraped", emails := [] }) ∧
    (∀ ps : List (String × ScrapedContent), ps ≠ [] →
      (∀ e ∈ ps, ¬ (e.2.success = true ∧ e.2.content ≠ "")) →
      (create_combined_content ps).success = false ∧
      (create_combined_content ps).error = some "No successful pages" ∧
      (create_combined_content ps).content = "" ∧
      (create_combined_content ps).emails = []) := by
  refine ⟨rfl, ?_⟩
  intro ps hne h
  match ps, hne with
  | (main_url, c) :: rest, _ =>
    have hfold : ((main_url, c) :: rest).foldl combineStep ([], [], 0) = ([], [], 0) :=
      combine_fold_all_fail _ _ h
    simp [create_combined_content, hfold]
    rfl

/-- C6 witness: a one-entry map holding a failed fetch consolidates to the
`"No successful pages"` failure. -/
theorem C6_all_fail_consolidation_witness :
    (create_combined_content [("https://f.test", cFail)]).success = false ∧
    (create_combined_content [("https://f.test", cFail)]).error = some "No successful pages" ∧
    (create_combined_content [("https://f.test", cFail)]).content = "" ∧
    (create_combined_content [("https://f.test", cFail)]).emails = [] :=
  C6_all_fail_consolidation.2 [("https://f.test", cFail)] (by decide) (by decide)

/-! ## C10 — consolidated emails are the exact-string union -/

/-- Membership in the insert-if-absent union accumulator. -/
theorem mem_emailsUnionStep (es : List String) (acc : List String) (e : String) :
    e ∈ emailsUnionStep acc es ↔ e ∈ acc ∨ e ∈ es := by
  induction es generalizing acc with
  | nil => simp [emailsUnionStep]
  | cons x xs ih =>
    by_cases hx : x ∈ acc
    · simp only [emailsUnionStep, List.foldl_cons, if_pos hx] at *
      rw [ih]
      constructor
      · rintro (h | h)
        · exact Or.inl h
        · exact Or.inr (by simp [h])
      · rintro (h | h)
        · exact Or.inl h
        · rcases List.mem_cons.mp h with rfl | h
          · exact Or.inl hx
          · exact Or.inr h
    · simp only [emailsUnionStep, List.foldl_cons, if_neg hx] at *
      rw [ih]
      simp [List.mem_append, List.mem_cons]
      tauto

/-- Membership in the email accumulator of the consolidation fold: an address
is collected iff it appears in the accumulator or on some successful,
non-empty page of the list. -/
theorem mem_combine_fold (l : List (String × ScrapedContent))
    (acc : List String × List String × Nat) (e : String) :
    e ∈ (l.foldl combineStep acc).2.1 ↔
      e ∈ acc.2.1 ∨ ∃ entry ∈ l, entry.2.success = true ∧ entry.2.content ≠ "" ∧
        e ∈ entry.2.emails := by
  induction l generalizing acc with
  | nil => simp
  | cons a l ih =>
    rw [List.foldl_cons, ih]
    by_cases ha : a.2.success = true ∧ a.2.content ≠ ""
    · by_cases hne : a.2.emails ≠ []
      · simp only [combineStep, if_pos ha, if_pos hne]
        rw [mem_emailsUnionStep]
        simp only [List.mem_cons]
        constructor
        · rintro ((h | h) | h)
          · exact Or.inl h
          · exact Or.inr ⟨a, Or.inl rfl, ha.1, ha.2, h⟩
          · rcases h with ⟨x, hx, hxs⟩
            exact Or.inr ⟨x, Or.inr hx, hxs⟩
        · rintro (h | ⟨x, hx | hx, hxs⟩)
          · exact Or.inl (Or.inl h)
          · subst hx
            exact Or.inl (Or.inr hxs.2.2)
          · exact Or.inr ⟨x, hx, hxs⟩
      · have hae : a.2.emails = [] := by
          by_contra hc
          exact hne hc
        simp only [combineStep, if_pos ha, if_neg hne]
        simp only [List.mem_cons]
        constructor
        · rintro (h | ⟨x, hx, hxs⟩)
          · exact Or.inl h
          · exact Or.inr ⟨x, Or.inr hx, hxs⟩
        · rintro (h | ⟨x, hx | hx, hxs⟩)
          · exact Or.inl h
          · subst hx
            rw [hae] at hxs
            simp at hxs
          · exact Or.inr ⟨x, hx, hxs⟩
    · simp only [combineStep, if_neg ha]
      simp only [List.mem_cons]
      constructor
      · rintro (h | ⟨x, hx, hxs⟩)
        · exact Or.inl h
        · exact Or.inr ⟨x, Or.inr hx, hxs⟩
      · rintro (h | ⟨x, hx | hx, hxs⟩)
        · exact Or.inl h
        · subst hx
          exact absurd ⟨hxs.1, hxs.2.1⟩ ha
        · exact Or.inr ⟨x, hx, hxs⟩

/-- Two successful pages contributing the two case-variants of one address. -/
def pageVariantA : String × ScrapedContent :=
  ("https://x.com",
   { url := "https://x.com", content := "Home", success := true,
     error := none, emails := ["Info@x.com"] })

/-- Second page for the case-variant example. -/
def pageVariantB : String × ScrapedContent :=
  ("https://x.com/contact",
   { url := "https://x.com/contact", content := "Contact", success := true,
     error := none, emails := ["info@x.com"] })

/-- C10: the consolidated email list is the exact-string union of the email
lists of the successful, non-empty pages — cross-page deduplication is
case-sensitive only, so two case-variants of one address contributed by two
different pages both appear (here `Info@x.com` and `info@x.com`), even though
per-page extraction deduplicates case-insensitively. -/
theorem C10_email_union :
    (∀ (ps : List (String × ScrapedContent)) (e : String),
      e ∈ (create_combined_content ps).emails ↔
        ∃ entry ∈ ps, entry.2.success = true ∧ entry.2.content ≠ "" ∧
          e ∈ entry.2.emails) ∧
    ((create_combined_content [pageVariantA, pageVariantB]).emails =
      ["Info@x.com", "info@x.com"]) := by
  constructor
  · intro ps e
    match ps with
    | [] => simp [create_combined_content]
    | (main_url, c) :: rest =>
      rw [show (create_combined_content ((main_url, c) :: rest)).emails =
        (((main_url, c) :: rest).foldl combineStep ([], [], 0)).2.1 from rfl]
      rw [mem_combine_fold]
      simp
  · decide

/-! ## C7 — domain-scoped email extraction -/

/-- `dedupLowerSeen` only consults the seen set through membership. -/
theorem dedupLowerSeen_congr (s1 s2 : List String)
    (h : ∀ x, x ∈ s1 ↔ x ∈ s2) (l : List String) :
    dedupLowerSeen s1 l = dedupLowerSeen s2 l := by
  induction l generalizing s1 s2 with
  | nil => rfl
  | cons e rest ih =>
    by_cases he : pyLower e ∈ s1
    · rw [dedupLowerSeen, dedupLowerSeen, if_pos he, if_pos ((h _).mp he)]
      exact ih s1 s2 h
    · rw [dedupLowerSeen, dedupLowerSeen, if_neg he, if_neg (fun hc => he ((h _).mpr hc))]
      refine congrArg _ (ih _ _ ?_)
      intro x
      simp [h x]

/-- The imperative fold of `extract_emails_from_html` computes the declarative
"filter by domain, then deduplicate case-insensitively keeping the first-seen
casing" on top of any accumulator. -/
theorem emails_foldl_eq (domain : String) (l : List String) (acc : List String) :
    l.foldl (emailStep domain) acc =
      acc ++ dedupLowerSeen (acc.map pyLower) (l.filter (emailDomainOk domain)) := by
  induction l generalizing acc with
  | nil => simp [dedupLowerSeen]
  | cons e rest ih =>
    by_cases hok : emailDomainOk domain e = true
    · by_cases hseen : (acc.map pyLower).contains (pyLower e) = true
      · have hstep : emailStep domain acc e = acc := by
          unfold emailStep
          rw [if_pos hok, if_pos hseen]
        have hmem : pyLower e ∈ acc.map pyLower := List.elem_iff.mp hseen
        rw [List.foldl_cons, hstep, ih, List.filter_cons_of_pos hok,
          dedupLowerSeen, if_pos hmem]
      · have hstep : emailStep domain acc e = acc ++ [e] := by
          unfold emailStep
          rw [if_pos hok, if_neg hseen]
        have hmem : pyLower e ∉ acc.map pyLower := fun hc => hseen (List.elem_iff.mpr hc)
        rw [List.foldl_cons, hstep, ih, List.filter_cons_of_pos hok,
          dedupLowerSeen, if_neg hmem]
        rw [List.append_assoc]
        refine congrArg _ ?_
        simp only [List.singleton_append]
        refine congrArg _ ?_
        refine dedupLowerSeen_congr _ _ ?_ _
        intro x
        rw [List.map_append]
        simp [List.mem_append, List.mem_cons, or_comm]
    · have hstep : emailStep domain acc e = acc := by
        simp [emailStep, hok]
      rw [List.foldl_cons, hstep, ih, List.filter_cons_of_neg (by simp [hok])]

/-- C7: `extract_emails_from_html` returns exactly the regex matches of the
markup whose domain part (lowercased) equals the target domain (lowercased) or
ends with `"." + target`, deduplicated case-insensitively with first-seen
casing and order; it returns the empty list when the regex finds no match; on
the three-address example only the target-domain and subdomain addresses
survive, in scan order. -/
theorem C7_email_filtering :
    (∀ html domain : String,
      extract_emails_from_html html domain =
        dedupLowerSeen [] ((findEmails html).filter (emailDomainOk domain))) ∧
    (∀ html domain : String, findEmails html = [] →
      extract_emails_from_html html domain = []) ∧
    (extract_emails_from_html "a@target.com b@sub.target.com c@other.com" "target.com" =
      ["a@target.com", "b@sub.target.com"]) := by
  refine ⟨?_, ?_, ?_⟩
  · intro html domain
    rw [extract_emails_from_html, emails_foldl_eq]
    rfl
  · intro html domain h
    rw [extract_emails_from_html, h]
    rfl
  · decide

/-- C7 witness: markup with no regex match yields the empty list (never an
absent value). -/
theorem C7_email_filtering_witness :
    extract_emails_from_html "no address in sight" "target.com" = [] :=
  C7_email_filtering.2.1 "no address in sight" "target.com" (by decide)

/-! ## Crawl-loop invariants (C2, C3, C4) -/

/-- A loop whose queue is exhausted returns its state unchanged. -/
theorem crawlLoop_queue_nil (env : CrawlEnv) (b : String) (d p fuel : Nat)
    (s : CrawlState) (h : s.queue = []) :
    crawlLoop env b d p fuel s = s := by
  cases fuel with
  | zero => rfl
  | succ f => simp [crawlLoop, h]

/-- Everything `enqueueLinks` adds beyond the original queue sits at the
supplied depth. -/
theorem mem_enqueueLinks (visited : List String) (d1 : Nat)
    (links : List String) (q : List (String × Nat)) (x : String × Nat)
    (hx : x ∈ enqueueLinks visited d1 q links) :
    x ∈ q ∨ x.2 = d1 := by
  induction links generalizing q with
  | nil => exact Or.inl hx
  | cons l ls ih =>
    rw [enqueueLinks, List.foldl_cons] at hx
    rcases ih _ hx with h | h
    · by_cases hc : l ∉ visited ∧ (l, d1) ∉ q
      · rw [if_pos hc] at h
        rcases List.mem_append.mp h with h | h
        · exact Or.inl h
        · right
          rw [List.mem_singleton.mp h]
      · rw [if_neg hc] at h
        exact Or.inl h
    · exact Or.inr h

/-- Step equation: an exhausted queue leaves the state unchanged. -/
theorem crawlStep_nil (env : CrawlEnv) (b : String) (d : Nat) (s : CrawlState)
    (h : s.queue = []) : crawlStep env b d s = s := by
  simp only [crawlStep, h]

/-- Step equation: a dequeued URL that was already visited is dropped — the
fetch does not run, `visited` and `results` are untouched, so the skip does
not count against the page budget. -/
theorem crawlStep_visited (env : CrawlEnv) (b : String) (d : Nat) (s : CrawlState)
    (url : String) (depth : Nat) (rest : List (String × Nat))
    (h : s.queue = (url, depth) :: rest) (hv : url ∈ s.visited) :
    crawlStep env b d s = { s with queue := rest } := by
  simp only [crawlStep, h, if_pos hv]

/-- Step equation: a fresh URL is fetched, recorded, and (only on success
below the depth bound) its links are enqueued one level deeper. -/
theorem crawlStep_new (env : CrawlEnv) (b : String) (d : Nat) (s : CrawlState)
    (url : String) (depth : Nat) (rest : List (String × Nat))
    (h : s.queue = (url, depth) :: rest) (hv : url ∉ s.visited) :
    crawlStep env b d s =
      { queue :=
          if (env.fetch url).success = true ∧ depth < d then
            enqueueLinks (s.visited ++ [url]) (depth + 1) rest
              (env.extractLinks (env.fetch url).html_content url b)
          else rest,
        visited := s.visited ++ [url],
        results := s.results ++ [(url, depth, toScrapedContent (env.fetch url))] } := by
  simp only [crawlStep, h, if_neg hv]

/-- One loop iteration preserves "every queued and every recorded depth is at
most `max_depth`". -/
theorem crawlStep_depth_inv (env : CrawlEnv) (b : String) (d : Nat) (s : CrawlState)
    (hq : ∀ x ∈ s.queue, x.2 ≤ d) (hr : ∀ r ∈ s.results, r.2.1 ≤ d) :
    (∀ x ∈ (crawlStep env b d s).queue, x.2 ≤ d) ∧
    (∀ r ∈ (crawlStep env b d s).results, r.2.1 ≤ d) := by
  match hqeq : s.queue with
  | [] =>
    rw [crawlStep_nil env b d s hqeq]
    exact ⟨hq, hr⟩
  | (url, depth) :: rest =>
    have hdep : depth ≤ d := hq (url, depth) (by rw [hqeq]; exact List.mem_cons_self _ _)
    have hrest : ∀ x ∈ rest, x.2 ≤ d := fun x hx =>
      hq x (by rw [hqeq]; exact List.mem_cons_of_mem _ hx)
    by_cases hv : url ∈ s.visited
    · rw [crawlStep_visited env b d s url depth rest hqeq hv]
      exact ⟨hrest, hr⟩
    · rw [crawlStep_new env b d s url depth rest hqeq hv]
      constructor
      · intro x hx
        simp only at hx
        by_cases hs : (env.fetch url).success = true ∧ depth < d
        · rw [if_pos hs] at hx
          rcases mem_enqueueLinks _ _ _ _ _ hx with h | h
          · exact hrest x h
          · omega
        · rw [if_neg hs] at hx
          exact hrest x hx
      · intro r hrm
        simp only at hrm
        rcases List.mem_append.mp hrm with h | h
        · exact hr r h
        · rw [List.mem_singleton.mp h]
          exact hdep

/-- Loop-level depth invariant. -/
theorem crawlLoop_depth_inv (env : CrawlEnv) (b : String) (d p : Nat) :
    ∀ (fuel : Nat) (s : CrawlState),
      (∀ x ∈ s.queue, x.2 ≤ d) → (∀ r ∈ s.results, r.2.1 ≤ d) →
      ∀ r ∈ (crawlLoop env b d p fuel s).results, r.2.1 ≤ d := by
  intro fuel
  induction fuel with
  | zero => intro s _ hr; exact hr
  | succ f ih =>
    intro s hq hr
    rw [crawlLoop]
    by_cases hstop : s.queue = [] ∨ ¬ s.results.length < p
    · rw [if_pos hstop]
      exact hr
    · rw [if_neg hstop]
      have h := crawlStep_depth_inv env b d s hq hr
      exact ih _ h.1 h.2

/-- At `max_depth = 0` the link extractor is never consulted: the loop result
is the same for any two extractors over the same fetcher. -/
theorem crawlLoop_depth_zero_indep (fetch : String → ScrapedPage)
    (el1 el2 : String → String → String → List String) (b : String) (p : Nat) :
    ∀ (fuel : Nat) (s : CrawlState),
      crawlLoop ⟨fetch, el1⟩ b 0 p fuel s = crawlLoop ⟨fetch, el2⟩ b 0 p fuel s := by
  intro fuel
  induction fuel with
  | zero => intro s; rfl
  | succ f ih =>
    intro s
    rw [crawlLoop, crawlLoop]
    by_cases hstop : s.queue = [] ∨ ¬ s.results.length < p
    · rw [if_pos hstop, if_pos hstop]
    · rw [if_neg hstop, if_neg hstop]
      have hstep : crawlStep ⟨fetch, el1⟩ b 0 s = crawlStep ⟨fetch, el2⟩ b 0 s := by
        match hqeq : s.queue with
        | [] =>
          rw [crawlStep_nil _ _ _ _ hqeq, crawlStep_nil _ _ _ _ hqeq]
        | (url, depth) :: rest =>
          by_cases hv : url ∈ s.visited
          · rw [crawlStep_visited _ _ _ _ url depth rest hqeq hv,
              crawlStep_visited _ _ _ _ url depth rest hqeq hv]
          · rw [crawlStep_new _ _ _ _ url depth rest hqeq hv,
              crawlStep_new _ _ _ _ url depth rest hqeq hv]
            have hlt : ∀ g : String → ScrapedPage,
                ¬ ((g url).success = true ∧ depth < 0) := by
              rintro g ⟨-, h⟩
              omega
            simp only [if_neg (hlt fetch)]
      rw [hstep, ih]

/-- C2: every `(url, depth)` pair recorded by the crawl has `depth ≤ max_depth`
(links are only enqueued, at `depth + 1`, from a successful page sitting
strictly below the bound); at `max_depth = 0` the crawl is a single-page fetch
of the seed and the link extractor is never consulted. -/
theorem C2_depth_bound :
    ∀ (env : CrawlEnv) (start_url : String) (d maxp fuel : Nat),
      (∀ (url : String) (dep : Nat) (c : ScrapedContent),
        (url, dep, c) ∈ scrape_multi_page env start_url d maxp fuel → dep ≤ d) ∧
      (1 ≤ maxp → 1 ≤ fuel →
        scrape_multi_page env start_url 0 maxp fuel =
          [(start_url, 0, toScrapedContent (env.fetch start_url))]) ∧
      (∀ el1 el2 : String → String → String → List String,
        scrape_multi_page ⟨env.fetch, el1⟩ start_url 0 maxp fuel =
          scrape_multi_page ⟨env.fetch, el2⟩ start_url 0 maxp fuel) := by
  intro env start_url d maxp fuel
  refine ⟨?_, ?_, ?_⟩
  · intro url dep c hmem
    refine crawlLoop_depth_inv env _ d maxp fuel _ ?_ ?_ (url, dep, c) hmem
    · intro x hx
      rw [List.mem_singleton.mp hx]
      exact Nat.zero_le d
    · intro r hr
      simp at hr
  · intro hp hf
    match fuel, hf with
    | f + 1, _ =>
      rw [scrape_multi_page, crawlLoop]
      have hcond : ¬ (([(start_url, 0)] : List (String × Nat)) = [] ∨
          ¬ ([] : List (String × Nat × ScrapedContent)).length < maxp) := by
        simp
        omega
      rw [if_neg hcond]
      have hstep : crawlStep env (stripWww (urlparseNetlocPath start_url).1) 0
          { queue := [(start_url, 0)], visited := [], results := [] } =
          { queue := [], visited := [start_url],
            results := [(start_url, 0, toScrapedContent (env.fetch start_url))] } := by
        rw [crawlStep_new env _ 0 _ start_url 0 [] rfl (by simp)]
        have hlt : ¬ ((env.fetch start_url).success = true ∧ 0 < 0) := by
          rintro ⟨-, h⟩
          omega
        simp [hlt]
      rw [hstep, crawlLoop_queue_nil _ _ _ _ _ _ rfl]
  · intro el1 el2
    rw [scrape_multi_page, scrape_multi_page]
    rw [crawlLoop_depth_zero_indep]

/-- Fetch environment for witnesses: every page succeeds with fixed text and
no links are discovered. -/
def envB : CrawlEnv where
  fetch := fun u =>
    { url := u, text_content := "T", html_content := "", emails := [],
      success := true, error := none }
  extractLinks := fun _ _ _ => []

/-- C2 witness: on a concrete one-page environment, the recorded seed entry
has depth `≤ 1`, and the `max_depth = 0` crawl is exactly the single seed
fetch. -/
theorem C2_depth_bound_witness :
    (0 ≤ 1) ∧
    (scrape_multi_page envB "https://a.test" 0 5 5 =
      [("https://a.test", 0, toScrapedContent (envB.fetch "https://a.test"))]) :=
  ⟨(C2_depth_bound envB "https://a.test" 1 5 5).1 "https://a.test" 0
      (toScrapedContent (envB.fetch "https://a.test")) (by decide),
   (C2_depth_bound envB "https://a.test" 0 5 5).2.1 (by decide) (by decide)⟩

/-- One loop iteration grows the results map by at most one entry. -/
theorem crawlStep_length (env : CrawlEnv) (b : String) (d : Nat) (s : CrawlState) :
    (crawlStep env b d s).results.length ≤ s.results.length + 1 := by
  match hqeq : s.queue with
  | [] =>
    rw [crawlStep_nil env b d s hqeq]
    omega
  | (url, depth) :: rest =>
    by_cases hv : url ∈ s.visited
    · rw [crawlStep_visited env b d s url depth rest hqeq hv]
      simp
    · rw [crawlStep_new env b d s url depth rest hqeq hv]
      simp

/-- Loop-level page budget: the results map never exceeds `max_pages`. -/
theorem crawlLoop_length (env : CrawlEnv) (b : String) (d p : Nat) :
    ∀ (fuel : Nat) (s : CrawlState), s.results.length ≤ p →
      (crawlLoop env b d p fuel s).results.length ≤ p := by
  intro fuel
  induction fuel with
  | zero => intro s h; exact h
  | succ f ih =>
    intro s h
    rw [crawlLoop]
    by_cases hstop : s.queue = [] ∨ ¬ s.results.length < p
    · rw [if_pos hstop]
      exact h
    · rw [if_neg hstop]
      refine ih _ ?_
      have hlt : s.results.length < p := by
        rcases not_or.mp hstop with ⟨-, h2⟩
        omega
      have := crawlStep_length env b d s
      omega

/-- Fetch environment for the frontier-exhaustion example: a two-page site
(the seed links to one `/about` page, which links nowhere). -/
def envA : CrawlEnv where
  fetch := fun u =>
    { url := u, text_content := "Home page content here", html_content := "H",
      emails := [], success := true, error := none }
  extractLinks := fun _ url _ =>
    if url = "https://site.test" then ["https://site.test/about"] else []

/-- C3: each loop iteration adds at most one results entry, the results map
never exceeds `max_pages` (so `|results| ≤ max_pages` after every iteration
and at return), and a reachable graph smaller than the budget ends the crawl
by frontier exhaustion with fewer results — consolidated as a success, not a
failure (here: a two-page site under a five-page budget). -/
theorem C3_page_budget :
    (∀ (env : CrawlEnv) (b : String) (d : Nat) (s : CrawlState),
      (crawlStep env b d s).results.length ≤ s.results.length + 1) ∧
    (∀ (env : CrawlEnv) (start_url : String) (d maxp fuel : Nat),
      (scrape_multi_page env start_url d maxp fuel).length ≤ maxp) ∧
    ((scrape_multi_page envA "https://site.test" 2 5 10).length = 2 ∧
     (create_combined_content ((scrape_multi_page envA "https://site.test" 2 5 10).map
        (fun r => (r.1, r.2.2)))).success = true ∧
     (create_combined_content ((scrape_multi_page envA "https://site.test" 2 5 10).map
        (fun r => (r.1, r.2.2)))).error = none) := by
  refine ⟨crawlStep_length, ?_, by decide⟩
  intro env start_url d maxp fuel
  exact crawlLoop_length env _ d maxp fuel _ (by simp)

/-- One loop iteration preserves "the recorded keys are distinct and all of
them are visited". -/
theorem crawlStep_nodup_inv (env : CrawlEnv) (b : String) (d : Nat) (s : CrawlState)
    (hnd : (s.results.map (fun r => r.1)).Nodup)
    (hsub : ∀ k ∈ s.results.map (fun r => r.1), k ∈ s.visited) :
    ((crawlStep env b d s).results.map (fun r => r.1)).Nodup ∧
    (∀ k ∈ (crawlStep env b d s).results.map (fun r => r.1),
      k ∈ (crawlStep env b d s).visited) := by
  match hqeq : s.queue with
  | [] =>
    rw [crawlStep_nil env b d s hqeq]
    exact ⟨hnd, hsub⟩
  | (url, depth) :: rest =>
    by_cases hv : url ∈ s.visited
    · rw [crawlStep_visited env b d s url depth rest hqeq hv]
      exact ⟨hnd, hsub⟩
    · rw [crawlStep_new env b d s url depth rest hqeq hv]
      have hnotk : url ∉ s.results.map (fun r => r.1) := fun hk => hv (hsub url hk)
      constructor
      · simp only [List.map_append]
        rw [List.nodup_append]
        refine ⟨hnd, by simp, ?_⟩
        intro a ha hb
        simp at hb
        subst hb
        exact hnotk ha
      · intro k hk
        simp only [List.map_append, List.mem_append] at hk
        rcases hk with h | h
        · exact List.mem_append_left _ (hsub k h)
        · simp at h
          subst h
          simp

/-- Loop-level key-distinctness invariant. -/
theorem crawlLoop_nodup_inv (env : CrawlEnv) (b : String) (d p : Nat) :
    ∀ (fuel : Nat) (s : CrawlState),
      (s.results.map (fun r => r.1)).Nodup →
      (∀ k ∈ s.results.map (fun r => r.1), k ∈ s.visited) →
      ((crawlLoop env b d p fuel s).results.map (fun r => r.1)).Nodup := by
  intro fuel
  induction fuel with
  | zero => intro s h _; exact h
  | succ f ih =>
    intro s hnd hsub
    rw [crawlLoop]
    by_cases hstop : s.queue = [] ∨ ¬ s.results.length < p
    · rw [if_pos hstop]
      exact hnd
    · rw [if_neg hstop]
      have h := crawlStep_nodup_inv env b d s hnd hsub
      exact ih _ h.1 h.2

/-- C4: each URL string keys at most one results entry in any crawl (the
recorded keys are distinct — every URL is fetched at most once however many
times it was enqueued), and a dequeued URL already in the visited set is
skipped outright: the state change is exactly popping the queue, with no
fetch, no results entry and no visited growth. -/
theorem C4_no_duplicate_fetches :
    (∀ (env : CrawlEnv) (start_url : String) (d maxp fuel : Nat),
      ((scrape_multi_page env start_url d maxp fuel).map (fun r => r.1)).Nodup) ∧
    (∀ (env : CrawlEnv) (b : String) (d : Nat) (s : CrawlState)
        (url : String) (depth : Nat) (rest : List (String × Nat)),
      s.queue = (url, depth) :: rest → url ∈ s.visited →
      crawlStep env b d s = { s with queue := rest }) := by
  refine ⟨?_, crawlStep_visited⟩
  intro env start_url d maxp fuel
  refine crawlLoop_nodup_inv env _ d maxp fuel _ (by simp) (by simp)

/-- C4 witness: a queue head already in the visited set is popped with the
results and visited set untouched. -/
theorem C4_no_duplicate_fetches_witness :
    crawlStep envB "site.test" 3
        { queue := [("https://a.test", 0)], visited := ["https://a.test"], results := [] } =
      { queue := [], visited := ["https://a.test"], results := [] } :=
  C4_no_duplicate_fetches.2 envB "site.test" 3
    { queue := [("https://a.test", 0)], visited := ["https://a.test"], results := [] }
    "https://a.test" 0 [] rfl (by simp)

/-! ## C8 — internal-link extraction -/

/-- The first piece produced by the split accumulator is the reversed
accumulator followed by the run of non-separator characters. -/
theorem pySplitAux_head (sep : Char) (cs : List Char) :
    ∀ acc : List Char, ∃ rest, pySplitAux sep cs acc =
      (acc.reverse ++ cs.takeWhile (fun c => c ≠ sep)) :: rest := by
  induction cs with
  | nil =>
    intro acc
    exact ⟨[], by simp [pySplitAux]⟩
  | cons c cs ih =>
    intro acc
    by_cases hc : c = sep
    · subst hc
      refine ⟨pySplitAux c cs [], ?_⟩
      rw [pySplitAux, if_pos rfl]
      simp [List.takeWhile_cons]
    · obtain ⟨rest, hrest⟩ := ih (c :: acc)
      refine ⟨rest, ?_⟩
      rw [pySplitAux, if_neg hc, hrest]
      simp [List.takeWhile_cons, hc]

/-- `s.split(sep)[0]` is the prefix of `s` before the first separator. -/
theorem pySplit_head (sep : Char) (s : String) :
    (pySplit sep s).headD "" = String.mk (s.data.takeWhile (fun c => c ≠ sep)) := by
  obtain ⟨rest, h⟩ := pySplitAux_head sep s.data []
  rw [pySplit, h]
  simp

/-- The head piece of a split never contains the separator. -/
theorem pySplit_head_not_contains (sep : Char) (s : String) :
    pyContains ((pySplit sep s).headD "") sep = false := by
  rw [pySplit_head]
  by_cases h : (s.data.takeWhile (fun c => c ≠ sep)).contains sep = true
  · have hmem : sep ∈ s.data.takeWhile (fun c => c ≠ sep) := List.elem_iff.mp h
    have := List.mem_takeWhile_imp hmem
    simp at this
  · simpa [pyContains] using h

/-- Characters of the head piece of a split are characters of the source. -/
theorem pySplit_head_contains_imp (sep c : Char) (s : String)
    (h : pyContains ((pySplit sep s).headD "") c = true) :
    pyContains s c = true := by
  rw [pySplit_head] at h
  have hmem : c ∈ s.data.takeWhile (fun x => x ≠ sep) := List.elem_iff.mp h
  have : c ∈ s.data := (List.takeWhile_sublist _).subset hmem
  exact List.elem_iff.mpr this

/-- Port stripping never leaves a colon behind. -/
theorem portStripped_no_colon (d : String) :
    pyContains (if pyContains d ':' = true then (pySplit ':' d).headD "" else d) ':'
      = false := by
  by_cases h : pyContains d ':' = true
  · rw [if_pos h]
    exact pySplit_head_not_contains ':' d
  · rw [if_neg h]
    simpa using h

/-- Optional path stripping preserves colon-freedom. -/
theorem pathStripped_no_colon (b : Prop) [Decidable b] (d : String)
    (h : pyContains d ':' = false) :
    pyContains (if b ∧ pyContains d '/' = true then (pySplit '/' d).headD "" else d) ':'
      = false := by
  by_cases hb : b ∧ pyContains d '/' = true
  · rw [if_pos hb]
    by_cases hc : pyContains ((pySplit '/' d).headD "") ':' = true
    · rw [pySplit_head_contains_imp '/' ':' d hc] at h
      cases h
    · simpa using hc
  · rw [if_neg hb]
    exact h

/-- The processed domain of the URL branch never contains a colon (any port
suffix has been dropped). -/
theorem url_branch_domain_no_colon (t : String) :
    pyContains (url_branch_domain t) ':' = false :=
  pathStripped_no_colon _ _ (portStripped_no_colon _)

/-- What the URL branch returns: the processed domain, exactly when it is
nonempty and passes the regex or the length fallback. -/
theorem url_branch_eq_some (t d : String) :
    url_branch t = some d ↔
      d = url_branch_domain t ∧ d ≠ "" ∧
        (matchesDomainPattern d = true ∨
          (pyContains d '.' = true ∧ MIN_DOMAIN_LENGTH ≤ d.data.length)) := by
  simp only [url_branch]
  split_ifs with h1 h2
  · simp only [Option.some.injEq]
    constructor
    · intro h
      subst h
      exact ⟨rfl, h1.1, Or.inl h1.2⟩
    · rintro ⟨h, -, -⟩
      exact h.symm
  · simp only [Option.some.injEq]
    constructor
    · intro h
      subst h
      exact ⟨rfl, h2.1, Or.inr h2.2⟩
    · rintro ⟨h, -, -⟩
      exact h.symm
  · constructor
    · rintro ⟨⟩
    · rintro ⟨rfl, hne, hor⟩
      rcases hor with hp | hf
      · exact absurd ⟨hne, hp⟩ h1
      · exact absurd ⟨hne, hf.1, hf.2⟩ h2

/-- What the email branch returns: the stripped part after the unique `'@'`,
exactly when the text splits into two pieces at `'@'` and that part is
nonempty and contains a dot — with no further validation or stripping. -/
theorem email_branch_eq_some (t d : String) :
    email_branch t = some d ↔
      pyContains t '@' = true ∧
      ∃ a b, pySplit '@' t = [a, b] ∧ d = pyStrip b ∧ d ≠ "" ∧
        pyContains d '.' = true := by
  by_cases hat : pyContains t '@' = true
  · cases hsp : pySplit '@' t with
    | nil => simp [email_branch, hat, hsp]
    | cons a l2 =>
      cases l2 with
      | nil => simp [email_branch, hat, hsp]
      | cons b l3 =>
        cases l3 with
        | nil =>
          rw [email_branch, if_pos hat, hsp]
          dsimp only
          split_ifs with h
          · simp only [Option.some.injEq]
            constructor
            · intro heq
              subst heq
              exact ⟨hat, a, b, rfl, rfl, h.1, h.2⟩
            · rintro ⟨-, a', b', hab, rfl, -, -⟩
              simp only [List.cons.injEq, and_true] at hab
              rw [hab.2]
          · constructor
            · rintro ⟨⟩
            · rintro ⟨-, a', b', hab, rfl, hne, hdot⟩
              simp only [List.cons.injEq, and_true] at hab
              rw [← hab.2] at hne hdot
              exact absurd ⟨hne, hdot⟩ h
        | cons c rest => simp [email_branch, hat, hsp]
  · simp [email_branch, hat]

/-- The control flow of `extract_domain`: a returned domain comes from the
email branch, or from the URL branch after the email branch declined. -/
theorem extract_domain_branches (s d : String) (h : extract_domain s = some d) :
    email_branch (pyLower (pyStrip s)) = some d ∨
    (email_branch (pyLower (pyStrip s)) = none ∧
      url_branch (pyLower (pyStrip s)) = some d) := by
  by_cases hs : s = ""
  · rw [extract_domain, if_pos hs] at h
    cases h
  · rw [extract_domain, if_neg hs] at h
    cases he : email_branch (pyLower (pyStrip s)) with
    | some d' =>
      simp only [he] at h
      exact Or.inl h
    | none =>
      simp only [he] at h
      exact Or.inr ⟨rfl, h⟩

/-- C9 counterexample: `extract_domain` does not behave as claimed on two
concrete inputs.  The email branch returns `"www.example.com:8080"` verbatim —
a non-absent result with the `www.` prefix and the port suffix still present;
and the fallback accepts `"foo.12"`, which fails the `label(.label)+`
valid-TLD pattern the claim requires of every accepted domain. -/
theorem C9_counterexample :
    extract_domain "user@www.example.com:8080" = some "www.example.com:8080" ∧
    pyStartsWith "www.example.com:8080" "www." = true ∧
    pyContains "www.example.com:8080" ':' = true ∧
    extract_domain "foo.12" = some "foo.12" ∧
    matchesDomainPattern "foo.12" = false := by
  decide

/-- C9 (amended): `extract_domain` is total (never raises) and returns `none`
on the empty string; every returned domain comes either from the email branch
— which hands back the stripped text after the unique `'@'` unvalidated, with
no `www.`/port stripping — or, when the email branch declines, from the URL
branch, whose results have any port suffix dropped and are nonempty and either
match the domain pattern or pass the simpler fallback (contain a dot and have
length at least `MIN_DOMAIN_LENGTH`). -/
theorem C9_extract_domain_amended :
    (extract_domain "" = none) ∧
    (∀ s d, extract_domain s = some d →
      email_branch (pyLower (pyStrip s)) = some d ∨
      (email_branch (pyLower (pyStrip s)) = none ∧
        url_branch (pyLower (pyStrip s)) = some d)) ∧
    (∀ t d, email_branch t = some d →
      d ≠ "" ∧ pyContains d '.' = true ∧
      ∃ a b, pySplit '@' t = [a, b] ∧ d = pyStrip b) ∧
    (∀ t d, url_branch t = some d →
      pyContains d ':' = false ∧ d ≠ "" ∧
      (matchesDomainPattern d = true ∨
        (pyContains d '.' = true ∧ MIN_DOMAIN_LENGTH ≤ d.data.length))) := by
  refine ⟨rfl, extract_domain_branches, ?_, ?_⟩
  · intro t d h
    obtain ⟨-, a, b, hsp, hstrip, hne, hdot⟩ := (email_branch_eq_some t d).mp h
    exact ⟨hne, hdot, a, b, hsp, hstrip⟩
  · intro t d h
    obtain ⟨hd, hne, hor⟩ := (url_branch_eq_some t d).mp h
    exact ⟨hd ▸ url_branch_domain_no_colon t, hne, hor⟩

/-- C9 witness: the theorem applied to concrete accepted inputs — a plain
domain through the URL branch and an email through the email branch. -/
theorem C9_extract_domain_amended_witness :
    (email_branch (pyLower (pyStrip "example.com")) = some "example.com" ∨
      (email_branch (pyLower (pyStrip "example.com")) = none ∧
        url_branch (pyLower (pyStrip "example.com")) = some "example.com")) ∧
    (pyContains "example.com" ':' = false ∧ ("example.com" : String) ≠ "" ∧
      (matchesDomainPattern "example.com" = true ∨
        (pyContains "example.com" '.' = true ∧
          MIN_DOMAIN_LENGTH ≤ ("example.com" : String).data.length))) ∧
    (("b.com" : String) ≠ "" ∧ pyContains "b.com" '.' = true ∧
      ∃ a b, pySplit '@' "a@b.com" = [a, b] ∧ "b.com" = pyStrip b) :=
  ⟨C9_extract_domain_amended.2.1 "example.com" "example.com" (by decide),
   C9_extract_domain_amended.2.2.2 "example.com" "example.com" (by decide),
   C9_extract_domain_amended.2.2.1 "a@b.com" "b.com" (by decide)⟩

end Dealdriver
